import Mathlib

/-!
Shallow embedding of the memory-access-pattern visualization core
(`src/scenes/MatrixScene.tsx`) and proofs about it.

Times and coordinates are JavaScript numbers in the source; they are
modelled as rationals here.  Every JS `%` in this program is applied to
non-negative operands, where the JS truncated remainder coincides with
the floor-based remainder `jsMod` used below.
-/

namespace MatrixScene

/-- One grid cell, as built in `matrixData` (MatrixScene.tsx lines 25-44). -/
structure Cell where
  index : ℕ
  row : ℕ
  col : ℕ
  x : ℚ
  y : ℚ
  z : ℚ
  baseColor : ℚ
  accessTime : ℚ
  isAccessed : Bool
  deriving Repr, DecidableEq

/-- `spacing` constant (line 22). -/
def spacing : ℚ := 0.18

/-- `cellSize` constant (line 21). -/
def cellSize : ℚ := 0.15

/-- The cell record pushed for a given `(row, col)` (lines 29-40). -/
def mkCell (rows cols row col : ℕ) : Cell :=
  { index := row * cols + col
    row := row
    col := col
    x := ((col : ℚ) - (cols : ℚ) / 2) * spacing
    y := ((rows : ℚ) / 2 - (row : ℚ)) * spacing
    z := 0
    baseColor := 0.2
    accessTime := 0
    isAccessed := false }

/-- The doubly nested construction loop of `matrixData` (lines 25-44). -/
def matrixData (rows cols : ℕ) : List Cell :=
  (List.range rows).flatMap fun row =>
    (List.range cols).map fun col => mkCell rows cols row col

/-- JS `a % b` for the non-negative operands used in this program:
`a - b * floor(a / b)`. -/
def jsMod (a b : ℚ) : ℚ := a - b * ⌊a / b⌋

/-- `patternIndex = Math.floor(time * 2) % 4` (line 83). -/
def patternIndex (t : ℚ) : ℤ := ⌊t * 2⌋ % 4

/-- `patterns` (line 86). -/
def patterns : List String := ["Sequential", "Random", "Block", "Stride"]

/-- `patterns[patternIndex]` (lines 86-87). -/
def patternName (t : ℚ) : String := patterns.getD (patternIndex t).toNat ""

/-- `matrixData.forEach((cell, i) => ...)` where the callback rewrites the
cell: an index-aware map, starting the counter at `i₀`. -/
def forEachIdx (f : ℕ → Cell → Cell) : ℕ → List Cell → List Cell
  | _, [] => []
  | i, c :: cs => f i c :: forEachIdx f (i + 1) cs

/-- Sequential branch (lines 93-99): `currentIndex = Math.floor((time * 10) %
totalCells)`; every cell gets `isAccessed = (i === currentIndex)` and the
accessed cell gets `accessTime = time`. -/
def seqTick (totalCells : ℕ) (t : ℚ) (grid : List Cell) : List Cell :=
  let currentIndex : ℤ := ⌊jsMod (t * 10) (totalCells : ℚ)⌋
  forEachIdx (fun i c =>
    { c with
      isAccessed := decide ((i : ℤ) = currentIndex)
      accessTime := if (i : ℤ) = currentIndex then t else c.accessTime }) 0 grid

/-- Random branch (lines 100-106).  The source gates on the hard-coded
constant `0.016`, not on the actual frame delta.  `rnd` is the value
returned by `Math.random()`; the in-place mutation of
`matrixData[randomIndex]` is rendered as an index-aware map that rewrites
exactly that position. -/
def randomTick (totalCells : ℕ) (t rnd : ℚ) (grid : List Cell) : List Cell :=
  if ⌊t * 5⌋ ≠ ⌊(t - 0.016) * 5⌋ then
    let randomIndex : ℕ := (⌊rnd * (totalCells : ℚ)⌋).toNat
    forEachIdx (fun i c =>
      if i = randomIndex then { c with isAccessed := true, accessTime := t }
      else c) 0 grid
  else grid

/-- Block branch (lines 107-118): `blockSize = 4`,
`blockIndex = Math.floor((time * 3) % (totalCells / 16))`,
`startRow = Math.floor(blockIndex / (cols / 4)) * 4`,
`startCol = (blockIndex % (cols / 4)) * 4`; each cell's flag is the
rectangle membership test and accessed cells get `accessTime = time`. -/
def blockTick (rows cols : ℕ) (t : ℚ) (grid : List Cell) : List Cell :=
  let blockSize : ℕ := 4
  let totalCells : ℕ := rows * cols
  let blockIndex : ℤ :=
    ⌊jsMod (t * 3) ((totalCells : ℚ) / ((blockSize : ℚ) * blockSize))⌋
  let startRow : ℚ := (⌊(blockIndex : ℚ) / ((cols : ℚ) / blockSize)⌋ : ℚ) * blockSize
  let startCol : ℚ := jsMod (blockIndex : ℚ) ((cols : ℚ) / blockSize) * blockSize
  grid.map fun c =>
    let acc : Prop :=
      startRow ≤ (c.row : ℚ) ∧ (c.row : ℚ) < startRow + blockSize ∧
      startCol ≤ (c.col : ℚ) ∧ (c.col : ℚ) < startCol + blockSize
    { c with
      isAccessed := decide acc
      accessTime := if acc then t else c.accessTime }

/-- Stride branch (lines 119-127): `stride = 4`,
`startIndex = Math.floor((time * 8) % stride)`;
`isAccessed = ((i - startIndex) % stride === 0) && (i >= startIndex)`.
JS `%` here is the truncated remainder on a possibly negative left operand,
but comparison with 0 agrees with `Int.emod`, which is used below. -/
def strideTick (t : ℚ) (grid : List Cell) : List Cell :=
  let stride : ℤ := 4
  let startIndex : ℤ := ⌊jsMod (t * 8) (stride : ℚ)⌋
  forEachIdx (fun i c =>
    let acc : Prop := ((i : ℤ) - startIndex) % stride = 0 ∧ (i : ℤ) ≥ startIndex
    { c with
      isAccessed := decide acc
      accessTime := if acc then t else c.accessTime }) 0 grid

set_option linter.unusedVariables false in
/-- One simulation tick: the pattern dispatch of the `useFrame` body
(lines 79-127).  `frameDelta` is the frame delta available to the callback;
the source never reads it (the Random gate hard-codes `0.016`).  `rnd` is
the `Math.random()` sample consumed by the Random branch. -/
def tick (rows cols : ℕ) (t frameDelta rnd : ℚ) (grid : List Cell) : List Cell :=
  let totalCells : ℕ := rows * cols
  if patternIndex t = 0 then seqTick totalCells t grid
  else if patternIndex t = 1 then randomTick totalCells t rnd grid
  else if patternIndex t = 2 then blockTick rows cols t grid
  else strideTick t grid

/-- A sequence of ticks, oldest first; each entry is `(t, frameDelta, rnd)`. -/
def runTicks (rows cols : ℕ) (L : List (ℚ × ℚ × ℚ)) (grid : List Cell) : List Cell :=
  L.foldl (fun g p => tick rows cols p.1 p.2.1 p.2.2 g) grid

/-- An RGB color triple with components as produced by `new Color(r, g, b)`. -/
structure Color3 where
  r : ℚ
  g : ℚ
  b : ℚ
  deriving Repr, DecidableEq

/-- The color computation of the render loop (lines 138-155), as a function
of the current time and a cell. -/
def computeColor (t : ℚ) (cell : Cell) : Color3 :=
  let timeSinceAccess : ℚ := t - cell.accessTime
  if cell.isAccessed then
    ⟨1, 0.2, 0.2⟩
  else if timeSinceAccess < 1 then
    let fade := timeSinceAccess
    ⟨1 - fade * 0.8, 0.2, 0.2 + fade * 0.6⟩
  else if timeSinceAccess < 5 then
    let fade := min 1 ((timeSinceAccess - 1) / 4)
    ⟨0.2, 0.3, 0.8 - fade * 0.4⟩
  else
    ⟨0.3, 0.3, 0.4⟩

/-- One entry of the `intersects` array returned by
`raycaster.intersectObject`; only `instanceId` is consumed, and three.js
may omit it (`undefined`). -/
structure Intersection where
  instanceId : Option ℕ
  deriving Repr, DecidableEq

/-- The hover payload passed to `onHover` (lines 65-70). -/
structure HoverInfo where
  row : ℕ
  col : ℕ
  x : ℚ
  y : ℚ
  deriving Repr, DecidableEq

/-- Normalized device coordinates computed from the pointer position and
the bounding rectangle (lines 51-53). -/
def ndc (clientX clientY rectLeft rectTop rectWidth rectHeight : ℚ) : ℚ × ℚ :=
  (((clientX - rectLeft) / rectWidth) * 2 - 1,
   -(((clientY - rectTop) / rectHeight)) * 2 + 1)

/-- Outcome of one `handlePointerMove` call, seen through its only effect,
the `onHover` call: `none` means `onHover` was not invoked at all,
`some none` means `onHover(null)`, `some (some info)` means `onHover(info)`. -/
def handlePointerMove (data : List Cell) (onHoverPresent meshPresent : Bool)
    (clientX clientY : ℚ) (intersects : List Intersection) :
    Option (Option HoverInfo) :=
  if !onHoverPresent then none
  else if !meshPresent then none
  else
    match intersects with
    | [] => some none
    | first :: _ =>
      match first.instanceId with
      | none => none
      | some instanceId =>
        if instanceId < data.length then
          match data.get? instanceId with
          | some cell => some (some ⟨cell.row, cell.col, clientX, clientY⟩)
          | none => none
        else none


/-- Upper bound on every cell's last-access time in a grid state. -/
def timesLe (b : ℚ) (grid : List Cell) : Prop := ∀ c ∈ grid, c.accessTime ≤ b

/-- Definition taken from the words of claim C5 (spec section 4.2), for
comparison with the code: `numBlocks = totalCells / blockSize²` and
`blockIndex = floor(t * 3) mod numBlocks`, the mod being applied after the
floor, as the real (floor-convention) remainder since `numBlocks` need not
be an integer. -/
def specBlockIndex (rows cols : ℕ) (t : ℚ) : ℚ :=
  jsMod ((⌊t * 3⌋ : ℤ) : ℚ) (((rows * cols : ℕ) : ℚ) / 16)

/-- Claim C5's `startRow = floor(blockIndex / (cols/blockSize)) * blockSize`. -/
def specStartRow (rows cols : ℕ) (t : ℚ) : ℚ :=
  ((⌊specBlockIndex rows cols t / ((cols : ℚ) / 4)⌋ : ℤ) : ℚ) * 4

/-- Claim C5's `startCol = (blockIndex mod (cols/blockSize)) * blockSize`. -/
def specStartCol (rows cols : ℕ) (t : ℚ) : ℚ :=
  jsMod (specBlockIndex rows cols t) ((cols : ℚ) / 4) * 4

/-- `blockIndex` as the source computes it (line 110):
`Math.floor((time * 3) % (totalCells / (blockSize * blockSize)))`. -/
def codeBlockIndex (rows cols : ℕ) (t : ℚ) : ℤ :=
  ⌊jsMod (t * 3) (((rows * cols : ℕ) : ℚ) / 16)⌋

/-- `startRow` as the source computes it (line 111). -/
def codeStartRow (rows cols : ℕ) (t : ℚ) : ℚ :=
  ((⌊(codeBlockIndex rows cols t : ℚ) / ((cols : ℚ) / 4)⌋ : ℤ) : ℚ) * 4

/-- `startCol` as the source computes it (line 112). -/
def codeStartCol (rows cols : ℕ) (t : ℚ) : ℚ :=
  jsMod ((codeBlockIndex rows cols t : ℚ)) ((cols : ℚ) / 4) * 4

/-! ### Helper lemmas -/

/-- Floor of a rational divided by a positive integer is integer division. -/
lemma floor_div_int (x : ℚ) (n : ℤ) (hn : 0 < n) : ⌊x / (n : ℚ)⌋ = ⌊x⌋ / n := by
  have hn0 : (0 : ℚ) < (n : ℚ) := by exact_mod_cast hn
  have hid : ⌊x⌋ % n + n * (⌊x⌋ / n) = ⌊x⌋ := Int.emod_add_ediv ⌊x⌋ n
  have hr0 : (0 : ℤ) ≤ ⌊x⌋ % n := Int.emod_nonneg _ (ne_of_gt hn)
  have hrn : ⌊x⌋ % n < n := Int.emod_lt_of_pos _ hn
  have hidQ : ((⌊x⌋ % n : ℤ) : ℚ) + (n : ℚ) * ((⌊x⌋ / n : ℤ) : ℚ) = ((⌊x⌋ : ℤ) : ℚ) := by
    exact_mod_cast congrArg (fun z : ℤ => (z : ℚ)) hid
  refine Int.floor_eq_iff.mpr ⟨?_, ?_⟩
  · rw [le_div_iff hn0]
    have hr0Q : (0 : ℚ) ≤ ((⌊x⌋ % n : ℤ) : ℚ) := by exact_mod_cast hr0
    have h1 : ((⌊x⌋ / n : ℤ) : ℚ) * n ≤ ((⌊x⌋ : ℤ) : ℚ) := by linarith
    exact h1.trans (Int.floor_le x)
  · rw [div_lt_iff hn0]
    have hrnQ : ((⌊x⌋ % n : ℤ) : ℚ) + 1 ≤ (n : ℚ) := by exact_mod_cast hrn
    have h2 : ((⌊x⌋ : ℤ) : ℚ) + 1 ≤ (((⌊x⌋ / n : ℤ) : ℚ) + 1) * n := by nlinarith
    have h3 : x < ((⌊x⌋ : ℤ) : ℚ) + 1 := Int.lt_floor_add_one x
    linarith

/-- Floor of `jsMod` against a positive integer modulus is the integer
(floor-convention) remainder of the floor. -/
lemma floor_jsMod (x : ℚ) (n : ℕ) (hn : 0 < n) :
    ⌊jsMod x (n : ℚ)⌋ = ⌊x⌋ % (n : ℤ) := by
  have hnz : ((n : ℤ) : ℚ) = (n : ℚ) := by push_cast; ring
  have hdiv : ⌊x / (n : ℚ)⌋ = ⌊x⌋ / (n : ℤ) := by
    rw [← hnz]; exact floor_div_int x n (by exact_mod_cast hn)
  have hrepr : jsMod x (n : ℚ) = x - (((n : ℤ) * (⌊x⌋ / (n : ℤ)) : ℤ) : ℚ) := by
    unfold jsMod
    rw [hdiv]; push_cast; ring
  rw [hrepr, Int.floor_sub_int, Int.emod_def]

lemma forEachIdx_length (f : ℕ → Cell → Cell) (i : ℕ) (l : List Cell) :
    (forEachIdx f i l).length = l.length := by
  induction l generalizing i with
  | nil => rfl
  | cons c cs ih => simp [forEachIdx, ih]

lemma forEachIdx_get? (f : ℕ → Cell → Cell) (i j : ℕ) (l : List Cell) :
    (forEachIdx f i l).get? j = (l.get? j).map (f (i + j)) := by
  induction l generalizing i j with
  | nil => simp [forEachIdx]
  | cons c cs ih =>
    cases j with
    | zero => simp [forEachIdx]
    | succ j =>
      show (forEachIdx f (i + 1) cs).get? j = (cs.get? j).map (f (i + (j + 1)))
      rw [ih (i + 1) j, Nat.add_assoc, Nat.add_comm 1 j]

/-- Flattening a rows-by-cols double loop is the single loop over
`rows * cols` with the usual div/mod coordinate recovery. -/
lemma flatten_range_map {α : Type} (f : ℕ → ℕ → α) (n m : ℕ) :
    ((List.range n).flatMap fun r => (List.range m).map (f r)) =
      (List.range (n * m)).map fun i => f (i / m) (i % m) := by
  induction n with
  | zero => simp
  | succ n ih =>
    rw [List.range_succ, List.flatMap_append, ih, Nat.succ_mul, List.range_add,
      List.map_append, List.map_map]
    simp only [List.flatMap_cons, List.flatMap_nil, List.append_nil]
    congr 1
    refine List.map_congr_left fun x hx => ?_
    have hxm : x < m := List.mem_range.mp hx
    have hm : 0 < m := lt_of_le_of_lt (Nat.zero_le x) hxm
    have hdiv : (n * m + x) / m = n := by
      rw [Nat.mul_comm n m, Nat.mul_add_div hm, Nat.div_eq_of_lt hxm, Nat.add_zero]
    have hmod : (n * m + x) % m = x := by
      rw [Nat.mul_comm n m, Nat.mul_add_mod, Nat.mod_eq_of_lt hxm]
    simp [Function.comp, hdiv, hmod]

/-- `matrixData` in single-index form. -/
lemma matrixData_eq (rows cols : ℕ) :
    matrixData rows cols =
      (List.range (rows * cols)).map fun i => mkCell rows cols (i / cols) (i % cols) :=
  flatten_range_map (mkCell rows cols) rows cols

lemma matrixData_length (rows cols : ℕ) :
    (matrixData rows cols).length = rows * cols := by
  rw [matrixData_eq]; simp

lemma matrixData_get? (rows cols i : ℕ) (hi : i < rows * cols) :
    (matrixData rows cols).get? i = some (mkCell rows cols (i / cols) (i % cols)) := by
  rw [matrixData_eq, List.get?_map, List.get?_range hi]; rfl

lemma matrixData_get?_eq_none (rows cols i : ℕ) (hi : rows * cols ≤ i) :
    (matrixData rows cols).get? i = none := by
  rw [List.get?_eq_none, matrixData_length]
  exact hi

/-! ### Claim theorems -/

set_option linter.unusedVariables false in
/-- Claim C8: for all `rows, cols > 0` the grid has exactly `rows * cols`
cells; position `i` holds the cell with `index = i`, `row = i / cols`,
`col = i % cols` (so `index = row * cols + col` is a bijection onto
`[0, rows * cols)`), with the stated static geometry, `accessTime = 0` and
`isAccessed = false`. -/
theorem c8_grid_construction (rows cols : ℕ) (hr : 0 < rows) (hc : 0 < cols) :
    (matrixData rows cols).length = rows * cols ∧
    (∀ i c, (matrixData rows cols).get? i = some c →
      i < rows * cols ∧
      c.index = i ∧ c.row = i / cols ∧ c.col = i % cols ∧
      c.row < rows ∧ c.col < cols ∧
      c.x = ((c.col : ℚ) - (cols : ℚ) / 2) * spacing ∧
      c.y = ((rows : ℚ) / 2 - (c.row : ℚ)) * spacing ∧
      c.z = 0 ∧ c.accessTime = 0 ∧ c.isAccessed = false) ∧
    (∀ r k, r < rows → k < cols →
      (matrixData rows cols).get? (r * cols + k) = some (mkCell rows cols r k)) := by
  refine ⟨matrixData_length rows cols, ?_, ?_⟩
  · intro i c hget
    have hi : i < rows * cols := by
      by_contra hge
      push_neg at hge
      rw [matrixData_get?_eq_none rows cols i hge] at hget
      exact Option.noConfusion hget
    rw [matrixData_get? rows cols i hi] at hget
    obtain rfl : mkCell rows cols (i / cols) (i % cols) = c := by
      exact Option.some.inj hget
    have hrow : i / cols < rows := Nat.div_lt_of_lt_mul (Nat.mul_comm rows cols ▸ hi)
    have hcol : i % cols < cols := Nat.mod_lt _ hc
    refine ⟨hi, ?_, rfl, rfl, hrow, hcol, rfl, rfl, rfl, rfl, rfl⟩
    show i / cols * cols + i % cols = i
    rw [Nat.mul_comm]
    exact Nat.div_add_mod i cols
  · intro r k hrlt hklt
    have hi : r * cols + k < rows * cols := by
      calc r * cols + k < r * cols + cols := by omega
      _ = (r + 1) * cols := by ring
      _ ≤ rows * cols := Nat.mul_le_mul_right _ (by omega)
    rw [matrixData_get? rows cols _ hi]
    have hdiv : (r * cols + k) / cols = r := by
      rw [Nat.mul_comm r cols, Nat.mul_add_div hc, Nat.div_eq_of_lt hklt, Nat.add_zero]
    have hmod : (r * cols + k) % cols = k := by
      rw [Nat.mul_comm r cols, Nat.mul_add_mod, Nat.mod_eq_of_lt hklt]
    rw [hdiv, hmod]

/-- Witness for C8 at `rows = 2`, `cols = 3`. -/
theorem c8_grid_construction_witness :
    (matrixData 2 3).length = 2 * 3 ∧
    (matrixData 2 3).get? (1 * 3 + 2) = some (mkCell 2 3 1 2) := by
  have h := c8_grid_construction 2 3 (by decide) (by decide)
  exact ⟨h.1, h.2.2 1 2 (by decide) (by decide)⟩

/-- Claim C2: the active pattern index is `floor(t * 2) mod 4`, mapped to
the names Sequential, Random, Block, Stride in that order; on the first
cycle the half-second windows give those four names in turn, and the
mapping has period 2. -/
theorem c2_pattern_schedule (t : ℚ) (ht : 0 ≤ t) :
    patternIndex t = ⌊t * 2⌋ % 4 ∧
    0 ≤ patternIndex t ∧ patternIndex t < 4 ∧
    patternName t = patterns.getD (patternIndex t).toNat "" ∧
    (t < 1/2 → patternName t = "Sequential") ∧
    (1/2 ≤ t → t < 1 → patternName t = "Random") ∧
    (1 ≤ t → t < 3/2 → patternName t = "Block") ∧
    (3/2 ≤ t → t < 2 → patternName t = "Stride") ∧
    patternIndex (t + 2) = patternIndex t := by
  have hname : ∀ z : ℤ, ⌊t * 2⌋ = z → patternIndex t = z % 4 := by
    intro z hz
    rw [patternIndex, hz]
  refine ⟨rfl, Int.emod_nonneg _ (by norm_num), Int.emod_lt_of_pos _ (by norm_num),
    rfl, ?_, ?_, ?_, ?_, ?_⟩
  · intro h
    have hf : ⌊t * 2⌋ = 0 := by
      rw [Int.floor_eq_iff]
      constructor <;> push_cast <;> linarith
    simp [patternName, patterns, hname 0 hf]
  · intro h1 h2
    have hf : ⌊t * 2⌋ = 1 := by
      rw [Int.floor_eq_iff]
      constructor <;> push_cast <;> linarith
    simp [patternName, patterns, hname 1 hf]
  · intro h1 h2
    have hf : ⌊t * 2⌋ = 2 := by
      rw [Int.floor_eq_iff]
      constructor <;> push_cast <;> linarith
    simp [patternName, patterns, hname 2 hf]
  · intro h1 h2
    have hf : ⌊t * 2⌋ = 3 := by
      rw [Int.floor_eq_iff]
      constructor <;> push_cast <;> linarith
    simp [patternName, patterns, hname 3 hf]
  · show ⌊(t + 2) * 2⌋ % 4 = ⌊t * 2⌋ % 4
    have heq : (t + 2) * 2 = t * 2 + ((4 : ℤ) : ℚ) := by push_cast; ring
    rw [heq, Int.floor_add_int]
    omega

/-- Witness for C2 at `t = 1/4`. -/
theorem c2_pattern_schedule_witness : patternName (1/4 : ℚ) = "Sequential" :=
  (c2_pattern_schedule (1/4) (by norm_num)).2.2.2.2.1 (by norm_num)

set_option linter.unusedVariables false in
/-- Claim C1: when the Sequential pattern is active and the grid is
non-empty, the tick marks exactly the cell at position
`floor(t * 10) mod totalCells` as accessed and stamps its access time
with `t`; every other cell has its flag set to `false` and keeps its
access time, and no other field changes. -/
theorem c1_sequential_tick (rows cols : ℕ) (t frameDelta rnd : ℚ) (grid : List Cell)
    (hlen : grid.length = rows * cols) (hpos : 0 < rows * cols)
    (ht : 0 ≤ t) (hp : patternIndex t = 0) :
    ∃ k : ℕ, (k : ℤ) = ⌊t * 10⌋ % ((rows * cols : ℕ) : ℤ) ∧ k < rows * cols ∧
      ∀ i c, grid.get? i = some c →
        (tick rows cols t frameDelta rnd grid).get? i =
          some { c with
                 isAccessed := decide (i = k)
                 accessTime := if i = k then t else c.accessTime } := by
  have hnz : ((rows * cols : ℕ) : ℤ) ≠ 0 := by
    exact_mod_cast Nat.pos_iff_ne_zero.mp hpos
  have hnpos : (0 : ℤ) < ((rows * cols : ℕ) : ℤ) := by exact_mod_cast hpos
  have hmod0 : 0 ≤ ⌊t * 10⌋ % ((rows * cols : ℕ) : ℤ) := Int.emod_nonneg _ hnz
  have hmodlt : ⌊t * 10⌋ % ((rows * cols : ℕ) : ℤ) < ((rows * cols : ℕ) : ℤ) :=
    Int.emod_lt_of_pos _ hnpos
  refine ⟨(⌊t * 10⌋ % ((rows * cols : ℕ) : ℤ)).toNat, Int.toNat_of_nonneg hmod0, by omega, ?_⟩
  intro i c hc
  have hcur : ⌊jsMod (t * 10) ((rows * cols : ℕ) : ℚ)⌋ = ⌊t * 10⌋ % ((rows * cols : ℕ) : ℤ) :=
    floor_jsMod (t * 10) (rows * cols) hpos
  have hstep : tick rows cols t frameDelta rnd grid = seqTick (rows * cols) t grid := by
    simp [tick, hp]
  rw [hstep]
  simp only [seqTick, forEachIdx_get?, hc, Option.map_some', Nat.zero_add, hcur]
  have hiff : ((i : ℤ) = ⌊t * 10⌋ % ((rows * cols : ℕ) : ℤ)) ↔
      (i = (⌊t * 10⌋ % ((rows * cols : ℕ) : ℤ)).toNat) := by omega
  have hd : decide ((i : ℤ) = ⌊t * 10⌋ % ((rows * cols : ℕ) : ℤ)) =
      decide (i = (⌊t * 10⌋ % ((rows * cols : ℕ) : ℤ)).toNat) := decide_eq_decide.mpr hiff
  have hi2 : (if (i : ℤ) = ⌊t * 10⌋ % ((rows * cols : ℕ) : ℤ) then t else c.accessTime) =
      (if i = (⌊t * 10⌋ % ((rows * cols : ℕ) : ℤ)).toNat then t else c.accessTime) := by
    by_cases hik : i = (⌊t * 10⌋ % ((rows * cols : ℕ) : ℤ)).toNat
    · rw [if_pos (hiff.mpr hik), if_pos hik]
    · rw [if_neg (fun h => hik (hiff.mp h)), if_neg hik]
  rw [hd, hi2]

/-- Witness for C1 at `rows = 1`, `cols = 2`, `t = 0`. -/
theorem c1_sequential_tick_witness :
    (tick 1 2 0 0 0 (matrixData 1 2)).get? 0 =
      some { mkCell 1 2 0 0 with isAccessed := true, accessTime := 0 } := by
  obtain ⟨k, hk, hklt, h⟩ :=
    c1_sequential_tick 1 2 0 0 0 (matrixData 1 2) (by decide) (by decide)
      (le_refl 0) (by norm_num [patternIndex])
  have hk0 : k = 0 := by
    have hf : ⌊(0 : ℚ) * 10⌋ = 0 := by norm_num
    rw [hf] at hk
    have hz : (k : ℤ) = 0 := by simpa using hk
    exact_mod_cast hz
  have h0 := h 0 (mkCell 1 2 0 0) (matrixData_get? 1 2 0 (by decide))
  rw [h0, hk0]
  simp

lemma get?_forEachIdx_of (f : ℕ → Cell → Cell) (grid : List Cell) (i : ℕ) (c : Cell)
    (hc : grid.get? i = some c) :
    (forEachIdx f 0 grid).get? i = some (f i c) := by
  rw [forEachIdx_get?, hc, Option.map_some', Nat.zero_add]

/-- Claim C3 counterexample: at `t = 9/10` (Random window) with an actual
frame delta of `1/2`, the claim's gate `floor(t*5) ≠ floor((t-frameDelta)*5)`
holds (4 ≠ 2), yet the tick mutates nothing, because the source gates on the
hard-coded `0.016`: `floor(4.5) = floor(4.42)`.  So no cell is accessed even
though the claim requires an access. -/
theorem c3_random_gate_counterexample :
    patternIndex (9/10 : ℚ) = 1 ∧
    ⌊(9/10 : ℚ) * 5⌋ ≠ ⌊((9/10 : ℚ) - (1/2 : ℚ)) * 5⌋ ∧
    tick 1 1 (9/10) (1/2) 0 (matrixData 1 1) = matrixData 1 1 ∧
    ∀ c ∈ matrixData 1 1, c.isAccessed = false := by
  have hp : patternIndex (9/10 : ℚ) = 1 := by
    have hf : ⌊(9/10 : ℚ) * 2⌋ = 1 := by
      rw [Int.floor_eq_iff]
      norm_num
    rw [patternIndex, hf]
    decide
  refine ⟨hp, by norm_num, ?_, by decide⟩
  have hgate : ⌊(9/10 : ℚ) * 5⌋ = ⌊((9/10 : ℚ) - 0.016) * 5⌋ := by
    norm_num
  simp [tick, hp, randomTick, hgate]

/-- Claim C3 amended: during the Random pattern the tick performs an access
if and only if `floor(t*5) ≠ floor((t - 0.016)*5)` — the source hard-codes
the constant `0.016` in the gate instead of the actual frame delta.  When
the gate fires, the accessed index is `floor(rnd * totalCells)`, which lies
in `[0, totalCells)`; when it does not, the grid is untouched. -/
theorem c3_random_gate_amended (rows cols : ℕ) (t frameDelta rnd : ℚ) (grid : List Cell)
    (hp : patternIndex t = 1) (h0 : 0 ≤ rnd) (h1 : rnd < 1) (hpos : 0 < rows * cols) :
    (⌊t * 5⌋ ≠ ⌊(t - 0.016) * 5⌋ →
      ∃ k, k < rows * cols ∧ ∀ i c, grid.get? i = some c →
        (tick rows cols t frameDelta rnd grid).get? i =
          some (if i = k then { c with isAccessed := true, accessTime := t } else c)) ∧
    (⌊t * 5⌋ = ⌊(t - 0.016) * 5⌋ → tick rows cols t frameDelta rnd grid = grid) := by
  have htick : tick rows cols t frameDelta rnd grid =
      randomTick (rows * cols) t rnd grid := by
    simp [tick, hp]
  constructor
  · intro hgate
    have hnn : (0 : ℚ) ≤ rnd * ((rows * cols : ℕ) : ℚ) := by positivity
    have hfl0 : 0 ≤ ⌊rnd * ((rows * cols : ℕ) : ℚ)⌋ := Int.floor_nonneg.mpr hnn
    have hlt : rnd * ((rows * cols : ℕ) : ℚ) < ((rows * cols : ℕ) : ℚ) := by
      have hposq : (0 : ℚ) < ((rows * cols : ℕ) : ℚ) := by exact_mod_cast hpos
      nlinarith
    have hfllt : ⌊rnd * ((rows * cols : ℕ) : ℚ)⌋ < ((rows * cols : ℕ) : ℤ) :=
      Int.floor_lt.mpr (by exact_mod_cast hlt)
    refine ⟨(⌊rnd * ((rows * cols : ℕ) : ℚ)⌋).toNat, by omega, ?_⟩
    intro i c hc
    rw [htick, randomTick, if_pos hgate]
    exact get?_forEachIdx_of _ grid i c hc
  · intro hgate
    rw [htick, randomTick, if_neg (by simpa using hgate)]

/-- Witness for the amended C3 at `t = 3/5` (gate fires: `3 ≠ 2`) on a
one-cell grid with `rnd = 0`. -/
theorem c3_random_gate_amended_witness :
    (tick 1 1 (3/5) 0 0 (matrixData 1 1)).get? 0 =
      some { mkCell 1 1 0 0 with isAccessed := true, accessTime := 3/5 } := by
  have hp : patternIndex (3/5 : ℚ) = 1 := by
    have hf : ⌊(3/5 : ℚ) * 2⌋ = 1 := by
      rw [Int.floor_eq_iff]
      norm_num
    rw [patternIndex, hf]
    decide
  obtain ⟨k, hklt, h⟩ :=
    (c3_random_gate_amended 1 1 (3/5) 0 0 (matrixData 1 1) hp (le_refl 0)
      (by norm_num) (by decide)).1 (by norm_num)
  have hk0 : k = 0 := by omega
  have h0 := h 0 (mkCell 1 1 0 0) (matrixData_get? 1 1 0 (by decide))
  rw [h0, hk0]
  simp

/-- Claim C4: during the Random pattern, every position other than the
randomly picked index `floor(rnd * totalCells)` is left completely
untouched by the tick (flag and access time keep their previous values),
whether or not the rate gate fires. -/
theorem c4_random_preserves_others (rows cols : ℕ) (t frameDelta rnd : ℚ)
    (grid : List Cell) (hp : patternIndex t = 1) (i : ℕ)
    (hne : i ≠ (⌊rnd * ((rows * cols : ℕ) : ℚ)⌋).toNat) :
    (tick rows cols t frameDelta rnd grid).get? i = grid.get? i := by
  have htick : tick rows cols t frameDelta rnd grid =
      randomTick (rows * cols) t rnd grid := by
    simp [tick, hp]
  rw [htick]
  simp only [randomTick]
  by_cases hgate : ⌊t * 5⌋ ≠ ⌊(t - 0.016) * 5⌋
  · rw [if_pos hgate, forEachIdx_get?]
    cases hgc : grid.get? i with
    | none => rfl
    | some c => rw [Option.map_some', Nat.zero_add, if_neg hne]
  · rw [if_neg hgate]

/-- Witness for C4 at `t = 3/5`, `rnd = 0`, position 1 of a 1x2 grid. -/
theorem c4_random_preserves_others_witness :
    (tick 1 2 (3/5) 0 0 (matrixData 1 2)).get? 1 = (matrixData 1 2).get? 1 := by
  have hp : patternIndex (3/5 : ℚ) = 1 := by
    have hf : ⌊(3/5 : ℚ) * 2⌋ = 1 := by
      rw [Int.floor_eq_iff]
      norm_num
    rw [patternIndex, hf]
    decide
  refine c4_random_preserves_others 1 2 (3/5) 0 0 (matrixData 1 2) hp 1 ?_
  have hf0 : ⌊(0 : ℚ) * ((1 * 2 : ℕ) : ℚ)⌋ = 0 := by norm_num
  rw [hf0]
  decide

/-- Claim C5 counterexample: at `rows = 5`, `cols = 8`, `t = 1` (Block
window) the claim's own formulas give `startCol = 2` (since
`numBlocks = 2.5` and `blockIndex = floor(3) mod 2.5 = 0.5`), excluding the
cell at row 0, col 0 — but the code floors after the remainder
(`blockIndex = floor(3 mod 2.5) = 0`, `startCol = 0`) and marks that cell
accessed. -/
theorem c5_block_counterexample :
    patternIndex (1 : ℚ) = 2 ∧
    specStartRow 5 8 1 = 0 ∧
    specStartCol 5 8 1 = 2 ∧
    ¬ (specStartCol 5 8 1 ≤ ((mkCell 5 8 0 0).col : ℚ)) ∧
    ((tick 5 8 1 0 0 (matrixData 5 8)).get? 0).map Cell.isAccessed = some true := by
  have hp : patternIndex (1 : ℚ) = 2 := by
    have hf : ⌊(1 : ℚ) * 2⌋ = 2 := by norm_num
    rw [patternIndex, hf]
    decide
  have hbi : specBlockIndex 5 8 1 = 1/2 := by
    rw [specBlockIndex, jsMod]
    norm_num
  have hsr : specStartRow 5 8 1 = 0 := by
    rw [specStartRow, hbi]
    norm_num
  have hsc : specStartCol 5 8 1 = 2 := by
    rw [specStartCol, hbi, jsMod]
    norm_num
  refine ⟨hp, hsr, hsc, ?_, ?_⟩
  · rw [hsc]
    simp [mkCell]
  · have htick : tick 5 8 1 0 0 (matrixData 5 8) = blockTick 5 8 1 (matrixData 5 8) := by
      simp [tick, hp]
    rw [htick, blockTick]
    simp only [List.get?_map, matrixData_get? 5 8 0 (by decide), Option.map_some']
    congr 1
    rw [decide_eq_true_iff]
    rw [jsMod, jsMod]
    norm_num [mkCell]

/-- Claim C5 amended: during the Block pattern the set of accessed cells is
exactly the rectangle `[startRow, startRow+4) x [startCol, startCol+4)`
where `startRow`/`startCol` come from
`blockIndex = floor((t * 3) mod numBlocks)` — the floor applied after the
remainder, as the code computes it; accessed cells get `accessTime = t` and
every other cell's flag is set to false with its access time kept. -/
theorem c5_block_tick_amended (rows cols : ℕ) (t frameDelta rnd : ℚ)
    (grid : List Cell) (hp : patternIndex t = 2) :
    ∀ i c, grid.get? i = some c →
      (tick rows cols t frameDelta rnd grid).get? i =
        some { c with
               isAccessed := decide (codeStartRow rows cols t ≤ (c.row : ℚ) ∧
                 (c.row : ℚ) < codeStartRow rows cols t + 4 ∧
                 codeStartCol rows cols t ≤ (c.col : ℚ) ∧
                 (c.col : ℚ) < codeStartCol rows cols t + 4)
               accessTime := if codeStartRow rows cols t ≤ (c.row : ℚ) ∧
                 (c.row : ℚ) < codeStartRow rows cols t + 4 ∧
                 codeStartCol rows cols t ≤ (c.col : ℚ) ∧
                 (c.col : ℚ) < codeStartCol rows cols t + 4 then t
                 else c.accessTime } := by
  intro i c hc
  have htick : tick rows cols t frameDelta rnd grid = blockTick rows cols t grid := by
    simp [tick, hp]
  rw [htick, blockTick]
  simp only [List.get?_map, hc, Option.map_some']
  have h4 : (((4 : ℕ) : ℚ)) = (4 : ℚ) := by norm_num
  have hq : (4 : ℚ) * 4 = 16 := by norm_num
  simp only [codeStartRow, codeStartCol, codeBlockIndex, h4, hq]

/-- Witness for the amended C5 on a 1x1 grid at `t = 1`. -/
theorem c5_block_tick_amended_witness :
    (tick 1 1 1 0 0 (matrixData 1 1)).get? 0 =
      some { mkCell 1 1 0 0 with isAccessed := true, accessTime := 1 } := by
  have hp : patternIndex (1 : ℚ) = 2 := by
    have hf : ⌊(1 : ℚ) * 2⌋ = 2 := by norm_num
    rw [patternIndex, hf]
    decide
  have h0 := c5_block_tick_amended 1 1 1 0 0 (matrixData 1 1) hp 0 (mkCell 1 1 0 0)
    (matrixData_get? 1 1 0 (by decide))
  rw [h0]
  have hbi : codeBlockIndex 1 1 1 = 0 := by
    rw [codeBlockIndex, jsMod]
    norm_num
  have hrect : codeStartRow 1 1 1 ≤ ((mkCell 1 1 0 0).row : ℚ) ∧
      ((mkCell 1 1 0 0).row : ℚ) < codeStartRow 1 1 1 + 4 ∧
      codeStartCol 1 1 1 ≤ ((mkCell 1 1 0 0).col : ℚ) ∧
      ((mkCell 1 1 0 0).col : ℚ) < codeStartCol 1 1 1 + 4 := by
    rw [codeStartRow, codeStartCol, hbi, jsMod]
    norm_num [mkCell]
  simp [hrect]

/-- Claim C6: the color is the stated piecewise function of
`(isAccessed, age)`; at the `age = 1` boundary the fade branch tends to
(0.2, 0.2, 0.8) while the value taken at `age = 1` is (0.2, 0.3, 0.8), so
the jump discontinuity is present in the implementation. -/
theorem c6_color_map (t : ℚ) (cell : Cell) :
    (cell.isAccessed = true → computeColor t cell = ⟨1, 0.2, 0.2⟩) ∧
    (cell.isAccessed = false → t - cell.accessTime < 1 →
      computeColor t cell =
        ⟨1 - (t - cell.accessTime) * 0.8, 0.2, 0.2 + (t - cell.accessTime) * 0.6⟩) ∧
    (cell.isAccessed = false → 1 ≤ t - cell.accessTime → t - cell.accessTime < 5 →
      computeColor t cell =
        ⟨0.2, 0.3, 0.8 - min 1 ((t - cell.accessTime - 1) / 4) * 0.4⟩) ∧
    (cell.isAccessed = false → 5 ≤ t - cell.accessTime →
      computeColor t cell = ⟨0.3, 0.3, 0.4⟩) ∧
    (cell.isAccessed = false → t - cell.accessTime = 1 →
      computeColor t cell = ⟨0.2, 0.3, 0.8⟩) ∧
    (∀ ε : ℚ, 0 < ε → ∃ δ : ℚ, 0 < δ ∧ ∀ a : ℚ, 1 - δ < a → a < 1 →
      |(computeColor a { cell with isAccessed := false, accessTime := 0 }).r - 0.2| < ε ∧
      |(computeColor a { cell with isAccessed := false, accessTime := 0 }).g - 0.2| < ε ∧
      |(computeColor a { cell with isAccessed := false, accessTime := 0 }).b - 0.8| < ε) ∧
    (Color3.mk 0.2 0.2 0.8 ≠ Color3.mk 0.2 0.3 0.8) := by
  refine ⟨?_, ?_, ?_, ?_, ?_, ?_, ?_⟩
  · intro h
    simp [computeColor, h]
  · intro h hlt
    simp [computeColor, h, hlt]
  · intro h h1 h5
    rw [computeColor]
    simp only [h, Bool.false_eq_true, if_false]
    rw [if_neg (by linarith), if_pos h5]
  · intro h h5
    rw [computeColor]
    simp only [h, Bool.false_eq_true, if_false]
    rw [if_neg (by linarith), if_neg (by linarith)]
  · intro h h1
    rw [computeColor]
    simp only [h, Bool.false_eq_true, if_false]
    rw [if_neg (by rw [h1]; norm_num), if_pos (by rw [h1]; norm_num)]
    rw [h1]
    norm_num
  · intro ε hε
    refine ⟨ε, hε, ?_⟩
    intro a ha1 ha2
    have hcolor : computeColor a { cell with isAccessed := false, accessTime := 0 } =
        ⟨1 - a * 0.8, 0.2, 0.2 + a * 0.6⟩ := by
      rw [computeColor]
      simp only [sub_zero]
      rw [if_neg (by simp), if_pos (by simpa using ha2)]
    rw [hcolor]
    simp only
    refine ⟨?_, ?_, ?_⟩
    · rw [abs_lt]
      constructor <;> nlinarith
    · rw [abs_lt]
      constructor <;> nlinarith
    · rw [abs_lt]
      constructor <;> nlinarith
  · intro h
    have := congrArg Color3.g h
    norm_num at this

/-- Witness for C6: a never-again-accessed cell at age 2 is solid blue
darkened by a quarter of the ramp. -/
theorem c6_color_map_witness :
    computeColor 2 { mkCell 1 1 0 0 with isAccessed := false } = ⟨0.2, 0.3, 0.7⟩ := by
  have h := (c6_color_map 2 { mkCell 1 1 0 0 with isAccessed := false }).2.2.1
    (by simp) (by norm_num [mkCell]) (by norm_num [mkCell])
  rw [h]
  have : min (1 : ℚ) ((2 - { mkCell 1 1 0 0 with isAccessed := false }.accessTime - 1) / 4)
      = 1/4 := by
    norm_num [mkCell]
  rw [this]
  norm_num

/-- Claim C7 counterexample: on a 1x1 grid, a nearest intersection whose
instance id is 1 (outside `[0, 1)`) makes the handler return without calling
`onHover` at all, whereas a miss (empty intersection list) calls
`onHover(null)` — so an out-of-range hit is *not* treated "exactly as" no
intersection, and no previously reported hover is cleared. -/
theorem c7_out_of_range_counterexample :
    handlePointerMove (matrixData 1 1) true true 0 0 [⟨some 1⟩] = none ∧
    handlePointerMove (matrixData 1 1) true true 0 0 [] = some none ∧
    (none : Option (Option HoverInfo)) ≠ some none := by
  refine ⟨?_, rfl, by simp⟩
  rw [handlePointerMove]
  simp [matrixData_length]

/-- Claim C7 amended: a pointer move whose nearest intersection has a
missing instance id or one outside `[0, totalCells)` is a silent no-op —
the handler does not invoke `onHover` at all (in particular it does not
clear a previous hover), unlike the no-intersection case, which reports
"no hover" by invoking `onHover(null)`. -/
theorem c7_out_of_range_amended (data : List Cell) (cx cy : ℚ)
    (rest : List Intersection) (oid : Option ℕ)
    (hout : ∀ id, oid = some id → data.length ≤ id) :
    handlePointerMove data true true cx cy (⟨oid⟩ :: rest) = none ∧
    handlePointerMove data true true cx cy [] = some none := by
  refine ⟨?_, rfl⟩
  cases oid with
  | none => rfl
  | some id =>
    have hnot : ¬ id < data.length := Nat.not_lt.mpr (hout id rfl)
    simp [handlePointerMove, hnot]

/-- Witness for the amended C7: instance id 5 on the 1-cell grid. -/
theorem c7_out_of_range_amended_witness :
    handlePointerMove (matrixData 1 1) true true 0 0 [⟨some 5⟩] = none :=
  (c7_out_of_range_amended (matrixData 1 1) 0 0 [] (some 5)
    (fun id h => by
      obtain rfl : (5 : ℕ) = id := Option.some.inj h
      rw [matrixData_length]
      norm_num)).1

/-- Claim C9: if a pointer-move event arrives while the hover callback is
supplied but the instanced mesh does not exist yet, the handler returns
without invoking `onHover` at all — neither with a cell nor with the null
"no hover" value — so a previously reported hover is not cleared. -/
theorem c9_mesh_missing_no_call (data : List Cell) (cx cy : ℚ)
    (intersects : List Intersection) :
    handlePointerMove data true false cx cy intersects = none := rfl

lemma accessTime_update_cases (c c' : Cell) (t : ℚ) (P : Prop) [inst : Decidable P]
    (h : ({ c with isAccessed := decide P
                   accessTime := if P then t else c.accessTime } : Cell) = c') :
    c'.accessTime = c.accessTime ∨ (c'.isAccessed = true ∧ c'.accessTime = t) := by
  by_cases hp : P
  · right
    rw [← h]
    simp [hp]
  · left
    rw [← h]
    simp [hp]

lemma tick_accessTime_cases (rows cols : ℕ) (t fd rnd : ℚ) (grid : List Cell)
    (i : ℕ) (c c' : Cell) (hc : grid.get? i = some c)
    (hc' : (tick rows cols t fd rnd grid).get? i = some c') :
    c'.accessTime = c.accessTime ∨ (c'.isAccessed = true ∧ c'.accessTime = t) := by
  simp only [tick] at hc'
  by_cases h0 : patternIndex t = 0
  · rw [if_pos h0] at hc'
    simp only [seqTick, forEachIdx_get?, hc, Option.map_some', Nat.zero_add] at hc'
    exact accessTime_update_cases c c' t _ (Option.some.inj hc')
  · rw [if_neg h0] at hc'
    by_cases h1 : patternIndex t = 1
    · rw [if_pos h1] at hc'
      simp only [randomTick] at hc'
      by_cases hgate : ⌊t * 5⌋ ≠ ⌊(t - 0.016) * 5⌋
      · rw [if_pos hgate, forEachIdx_get?, hc, Option.map_some', Nat.zero_add] at hc'
        have heq := Option.some.inj hc'
        by_cases hidx : i = (⌊rnd * ((rows * cols : ℕ) : ℚ)⌋).toNat
        · rw [if_pos hidx] at heq
          right
          rw [← heq]
          exact ⟨rfl, rfl⟩
        · rw [if_neg hidx] at heq
          left
          rw [← heq]
      · rw [if_neg hgate, hc] at hc'
        left
        rw [← Option.some.inj hc']
    · rw [if_neg h1] at hc'
      by_cases h2 : patternIndex t = 2
      · rw [if_pos h2] at hc'
        simp only [blockTick, List.get?_map, hc, Option.map_some'] at hc'
        exact accessTime_update_cases c c' t _ (Option.some.inj hc')
      · rw [if_neg h2] at hc'
        simp only [strideTick, forEachIdx_get?, hc, Option.map_some', Nat.zero_add] at hc'
        exact accessTime_update_cases c c' t _ (Option.some.inj hc')

lemma tick_length (rows cols : ℕ) (t fd rnd : ℚ) (grid : List Cell) :
    (tick rows cols t fd rnd grid).length = grid.length := by
  simp only [tick]
  by_cases h0 : patternIndex t = 0
  · rw [if_pos h0]
    simp only [seqTick]
    exact forEachIdx_length _ _ _
  · rw [if_neg h0]
    by_cases h1 : patternIndex t = 1
    · rw [if_pos h1]
      simp only [randomTick]
      by_cases hgate : ⌊t * 5⌋ ≠ ⌊(t - 0.016) * 5⌋
      · rw [if_pos hgate]
        exact forEachIdx_length _ _ _
      · rw [if_neg hgate]
    · rw [if_neg h1]
      by_cases h2 : patternIndex t = 2
      · rw [if_pos h2]
        simp only [blockTick]
        exact List.length_map _ _
      · rw [if_neg h2]
        simp only [strideTick]
        exact forEachIdx_length _ _ _

lemma tick_timesLe (rows cols : ℕ) (t fd rnd : ℚ) (grid : List Cell) (b : ℚ)
    (hg : timesLe b grid) (hbt : b ≤ t) :
    timesLe t (tick rows cols t fd rnd grid) := by
  intro c' hmem
  obtain ⟨i, hi⟩ := List.mem_iff_get?.mp hmem
  obtain ⟨hilen, -⟩ := List.get?_eq_some.mp hi
  rw [tick_length] at hilen
  obtain ⟨c, hc⟩ : ∃ c, grid.get? i = some c := by
    cases hgc : grid.get? i with
    | none =>
      rw [List.get?_eq_none] at hgc
      omega
    | some c => exact ⟨c, rfl⟩
  rcases tick_accessTime_cases rows cols t fd rnd grid i c c' hc hi with h | h
  · have hcb := hg c (List.get?_mem hc)
    rw [h]
    linarith
  · rw [h.2]

lemma matrixData_timesLe (rows cols : ℕ) : timesLe 0 (matrixData rows cols) := by
  intro c hmem
  rw [matrixData_eq] at hmem
  obtain ⟨i, hi, rfl⟩ := List.mem_map.mp hmem
  exact le_refl 0

lemma runTicks_timesLe (rows cols : ℕ) (L : List (ℚ × ℚ × ℚ)) (b : ℚ) (grid : List Cell)
    (hg : timesLe b grid)
    (hchain : List.Chain (· ≤ ·) b (L.map fun p => p.1)) :
    timesLe ((L.map fun p => p.1).getLastD b) (runTicks rows cols L grid) := by
  induction L generalizing b grid with
  | nil => simpa [runTicks] using hg
  | cons p L ih =>
    rw [List.map_cons, List.chain_cons] at hchain
    obtain ⟨hbp, hchain2⟩ := hchain
    have hstep := tick_timesLe rows cols p.1 p.2.1 p.2.2 grid b hg hbp
    have hrun := ih p.1 (tick rows cols p.1 p.2.1 p.2.2 grid) hstep hchain2
    show timesLe (((p :: L).map fun q => q.1).getLastD b)
      (runTicks rows cols L (tick rows cols p.1 p.2.1 p.2.2 grid))
    rw [List.map_cons, List.getLastD_cons]
    exact hrun

/-- Claim C10: in every tick, under every pattern, a cell's access time is
either kept or overwritten with the current time `t` (and only on cells
accessed this tick); hence along any run of ticks with non-decreasing,
non-negative times starting from the freshly built grid, access times are
non-decreasing and never exceed the most recent tick time, so the age
`t - accessTime` used by the color mapping is never negative. -/
theorem c10_access_time_monotone (rows cols : ℕ) :
    (∀ t frameDelta rnd grid i c c', grid.get? i = some c →
        (tick rows cols t frameDelta rnd grid).get? i = some c' →
        c'.accessTime = c.accessTime ∨ (c'.isAccessed = true ∧ c'.accessTime = t)) ∧
    (∀ t frameDelta rnd grid i c c', grid.get? i = some c →
        (tick rows cols t frameDelta rnd grid).get? i = some c' →
        c.accessTime ≤ t → c.accessTime ≤ c'.accessTime ∧ c'.accessTime ≤ t) ∧
    (∀ L : List (ℚ × ℚ × ℚ), List.Chain (· ≤ ·) 0 (L.map fun p => p.1) →
        timesLe ((L.map fun p => p.1).getLastD 0)
          (runTicks rows cols L (matrixData rows cols))) := by
  refine ⟨?_, ?_, ?_⟩
  · intro t frameDelta rnd grid i c c' hc hc'
    exact tick_accessTime_cases rows cols t frameDelta rnd grid i c c' hc hc'
  · intro t frameDelta rnd grid i c c' hc hc' hct
    rcases tick_accessTime_cases rows cols t frameDelta rnd grid i c c' hc hc' with h | h
    · rw [h]
      exact ⟨le_refl _, hct⟩
    · rw [h.2]
      exact ⟨hct, le_refl t⟩
  · intro L hchain
    exact runTicks_timesLe rows cols L 0 (matrixData rows cols)
      (matrixData_timesLe rows cols) hchain

/-- Witness for C10: one tick at `t = 0` on the 1-cell grid keeps every
access time at most 0. -/
theorem c10_access_time_monotone_witness :
    timesLe 0 (runTicks 1 1 [(0, 0, 0)] (matrixData 1 1)) := by
  have h := (c10_access_time_monotone 1 1).2.2 [(0, 0, 0)]
    (by rw [List.map_cons, List.chain_cons]; exact ⟨le_refl 0, List.Chain.nil⟩)
  simpa using h

end MatrixScene
